import Mathlib

/-!
Verification of the WindowWise mapping core: a shallow embedding of the
dead-reckoning engine found in the repository (the `MappingProcessor`
class, the accelerometer step detector of `useSensors.ts`, and the
compass-calibration completion logic of `MappingScreen.tsx`), together
with theorems settling the specification's claims about it.

JavaScript numbers are idealised as real numbers; `Math.atan2`,
`Math.sqrt`, `Math.sin`, `Math.cos` become their exact counterparts, and
the JavaScript remainder operator `%` is modelled by `jsMod` (remainder
with the sign of the dividend, via truncation toward zero).
-/

open scoped Classical

set_option maxRecDepth 8000

noncomputable section

namespace WindowWise

/-- A 2D point, `{ x, y }` in the source's local coordinate frame. -/
structure Point where
  x : ℝ
  y : ℝ

instance : Inhabited Point := ⟨⟨0, 0⟩⟩

/-- A three-axis sensor sample `{ x, y, z }`. -/
structure Vec3 where
  x : ℝ
  y : ℝ
  z : ℝ

/-- Truncation toward zero, as performed by JavaScript's `%` operator on
the quotient. -/
def jsTrunc (x : ℝ) : ℤ :=
  if 0 ≤ x then ⌊x⌋ else ⌈x⌉

/-- The JavaScript remainder `x % y` for real arguments:
`x - y * trunc (x / y)`. -/
def jsMod (x y : ℝ) : ℝ :=
  x - y * (jsTrunc (x / y) : ℝ)

/-- `Math.atan2 y x`, the angle of the point `(x, y)`, in `(-π, π]`;
modelled by the complex argument of `x + y·i`. -/
def atan2 (y x : ℝ) : ℝ :=
  Complex.arg ⟨x, y⟩

/-- Euclidean distance between two points, exactly as the source computes
it: `Math.sqrt ((q.x - p.x)^2 + (q.y - p.y)^2)`. -/
def euclidDist (p q : Point) : ℝ :=
  Real.sqrt ((q.x - p.x) ^ 2 + (q.y - p.y) ^ 2)

/-- Distance of `points[i]` from the chord `points[s] – points[e]`,
exactly as computed inside `MappingProcessor.simplifyPoints`
(src/unnamed/part_006, lines 192–220): the perpendicular distance
`|cross| / lineLength`, falling back to point-to-point distance when the
chord has zero length. -/
def dpPointDist (pts : List Point) (s e i : ℕ) : ℝ :=
  let startPoint := pts.getD s default
  let endPoint := pts.getD e default
  let point := pts.getD i default
  let lineLength := Real.sqrt ((endPoint.x - startPoint.x) ^ 2 +
    (endPoint.y - startPoint.y) ^ 2)
  if lineLength = 0 then
    Real.sqrt ((point.x - startPoint.x) ^ 2 + (point.y - startPoint.y) ^ 2)
  else
    |((point.x - startPoint.x) * (endPoint.y - startPoint.y) -
      (point.y - startPoint.y) * (endPoint.x - startPoint.x)) / lineLength|

/-- One iteration of the `maxDistance` / `maxIndex` scan of
`simplifyPoints`: keep the running maximum, replacing it when the new
distance is strictly greater. -/
def maxStep (f : ℕ → ℝ) (acc : ℝ × ℕ) (i : ℕ) : ℝ × ℕ :=
  if acc.1 < f i then (f i, i) else acc

/-- The `maxDistance` / `maxIndex` pair computed by the interior loop of
`simplifyPoints` over `i ∈ (s, e)`, starting from `(0, 0)`. -/
def maxDistIdx (pts : List Point) (s e : ℕ) : ℝ × ℕ :=
  (List.range' (s + 1) (e - (s + 1))).foldl
    (maxStep (dpPointDist pts s e)) (0, 0)

/-- If the scan's final maximum is positive, the recorded index was set by
some loop iteration, hence lies strictly between `s` and `e`. Needed for
the termination of `dpSimplify`. -/
theorem maxDistIdx_bounds (pts : List Point) (s e : ℕ)
    (h : 0 < (maxDistIdx pts s e).1) :
    s < (maxDistIdx pts s e).2 ∧ (maxDistIdx pts s e).2 < e := by
  unfold maxDistIdx at *
  have key : ∀ (l : List ℕ) (acc : ℝ × ℕ),
      (∀ i ∈ l, s < i ∧ i < e) →
      (0 < acc.1 → s < acc.2 ∧ acc.2 < e) →
      (0 < (l.foldl (maxStep (dpPointDist pts s e)) acc).1 →
        s < (l.foldl (maxStep (dpPointDist pts s e)) acc).2 ∧
        (l.foldl (maxStep (dpPointDist pts s e)) acc).2 < e) := by
    intro l
    induction l with
    | nil => intro acc _ hacc; exact hacc
    | cons i rest ih =>
      intro acc hmem hacc
      simp only [List.foldl_cons]
      apply ih
      · intro j hj; exact hmem j (List.mem_cons_of_mem i hj)
      · intro hpos
        unfold maxStep at hpos ⊢
        by_cases hc : acc.1 < dpPointDist pts s e i
        · rw [if_pos hc] at hpos ⊢
          exact hmem i (List.mem_cons_self i rest)
        · rw [if_neg hc] at hpos ⊢
          exact hacc hpos
  apply key _ _ _ _ h
  · intro i hi
    rw [List.mem_range'_1] at hi
    omega
  · intro h0
    exact absurd h0 (by norm_num)

/-- The recursive Douglas–Peucker pass of `simplifyPoints`
(src/unnamed/part_006, lines 179–235), returning the list of interior
points it pushes onto `simplified`, in push order. The tolerance is the
constant `0.1` the source always passes. -/
def dpSimplify (pts : List Point) (s e : ℕ) : List Point :=
  if e ≤ s + 1 then []
  else
    if h : 0.1 < (maxDistIdx pts s e).1 then
      dpSimplify pts s (maxDistIdx pts s e).2 ++
        pts.getD (maxDistIdx pts s e).2 default ::
          dpSimplify pts (maxDistIdx pts s e).2 e
    else []
termination_by e - s
decreasing_by
· have hb := maxDistIdx_bounds pts s e (lt_trans (by norm_num) h)
  omega
· have hb := maxDistIdx_bounds pts s e (lt_trans (by norm_num) h)
  omega

/-- The index at which `findIndex(p => p.x === a.x && p.y === a.y)`
locates a point in a list; the source uses it to re-order the simplified
points (src/unnamed/part_006, lines 244–248). Every point looked up there
occurs in the list, so the missing case (JavaScript's `-1`) is never
exercised. -/
def findIdxPt (p : Point) : List Point → ℕ
  | [] => 0
  | q :: rest => if q.x = p.x ∧ q.y = p.y then 0 else findIdxPt p rest + 1

/-- `MappingProcessor.simplifyPoints` (src/unnamed/part_006, lines
167–251) as a pure function on the point list: keep the first point, the
Douglas–Peucker survivors and the last point, then sort the result by the
index at which each value is first found in the original array.
JavaScript's `Array.sort` is stable; ties of the sort key only arise
between value-equal points (two points share a first-found index exactly
when they are equal), so any sort computing the same order of keys yields
the same value sequence, and insertion sort is used here. -/
def simplifyPoints (pts : List Point) : List Point :=
  if pts.length < 3 then pts
  else
    List.insertionSort (fun a b => findIdxPt a pts ≤ findIdxPt b pts)
      (pts.headI :: (dpSimplify pts 0 (pts.length - 1) ++ [pts.getLastI]))

/-- The sensor payload consumed by `MappingProcessor.processSensorData`:
an optional magnetometer sample and an optional pedometer step total. -/
structure SensorData where
  magnetometer : Option Vec3
  pedometer : Option ℕ

/-- The mutable state of a `MappingProcessor` instance
(src/unnamed/part_006, lines 8–14): the configured step length
(`this.settings.stepLength`) plus the tracked fields. -/
structure ProcState where
  stepLength : ℝ
  points : List Point
  heading : ℝ
  lastUpdateTime : ℝ
  calibrationOffset : ℝ
  stepCount : ℕ
  totalDistance : ℝ

/-- `MappingProcessor.reset` (src/unnamed/part_006, lines 24–34): wipe
all tracking state and start from a single origin point. The settings
object survives a reset. -/
def resetState (st : ProcState) (now : ℝ) : ProcState :=
  { st with
      points := [⟨0, 0⟩],
      heading := 0,
      lastUpdateTime := now,
      calibrationOffset := 0,
      stepCount := 0,
      totalDistance := 0 }

/-- The state constructed by `new MappingProcessor(settings)`: the
constructor stores the settings and calls `reset()`. -/
def initialState (stepLength now : ℝ) : ProcState :=
  resetState ⟨stepLength, [], 0, 0, 0, 0, 0⟩ now

/-- `MappingProcessor.updateHeading` (src/unnamed/part_006, lines 71–88)
as a function of the magnetometer sample and the calibration offset:
`atan2` is converted to degrees, rotated by `+90`, normalised to
`[0, 360)`, then the calibration offset is added modulo 360. -/
def updateHeadingDegrees (m : Vec3) (calibrationOffset : ℝ) : ℝ :=
  let radians := atan2 m.y m.x
  let degrees0 := radians * 180 / Real.pi + 90
  let degrees1 := if degrees0 < 0 then degrees0 + 360 else degrees0
  jsMod (jsMod degrees1 360 + calibrationOffset) 360

/-- The heading computation as the specification's §4.3 words describe
it, for comparison with `updateHeadingDegrees`: raw `atan2` converted to
degrees, normalised, plus the calibration offset, modulo 360 — with no
`+90` rotation. -/
def specHeadingEstimate (m : Vec3) (calibrationOffset : ℝ) : ℝ :=
  jsMod (jsMod (atan2 m.y m.x * 180 / Real.pi) 360 + calibrationOffset) 360

/-- The point appended by `addPointFromHeadingAndDistance`: the last
point displaced by `distance * (sin θ, cos θ)` where `θ` is the heading
in radians (src/unnamed/part_006, lines 99–115). -/
def stepDisplacedPoint (st : ProcState) (distance : ℝ) : Point :=
  ⟨st.points.getLastI.x + distance * Real.sin (st.heading * (Real.pi / 180)),
   st.points.getLastI.y + distance * Real.cos (st.heading * (Real.pi / 180))⟩

/-- `MappingProcessor.addPointFromHeadingAndDistance`
(src/unnamed/part_006, lines 93–121): append a point one displacement
away from the last point in the current heading direction; if the point
count then exceeds 100, run the simplifier. An empty point list only
receives the origin. -/
def addPointFromHeadingAndDistance (st : ProcState) (distance : ℝ) :
    ProcState :=
  if st.points = [] then { st with points := [⟨0, 0⟩] }
  else
    let pts := st.points ++ [stepDisplacedPoint st distance]
    if 100 < pts.length then { st with points := simplifyPoints pts }
    else { st with points := pts }

/-- `MappingProcessor.processSensorData` (src/unnamed/part_006, lines
39–66): update the heading from the magnetometer when present; when the
pedometer reports more steps than recorded, record them, accumulate
`newSteps * stepLength` into `totalDistance` and append a point; finally
stamp `lastUpdateTime`. -/
def processSensorData (st : ProcState) (sd : SensorData) (now : ℝ) :
    ProcState :=
  let st1 := match sd.magnetometer with
    | some m => { st with heading := updateHeadingDegrees m st.calibrationOffset }
    | none => st
  let st2 := match sd.pedometer with
    | some steps =>
        if st1.stepCount < steps then
          addPointFromHeadingAndDistance
            { st1 with
                stepCount := steps,
                totalDistance := st1.totalDistance +
                  ((steps - st1.stepCount : ℕ) : ℝ) * st1.stepLength }
            (((steps - st1.stepCount : ℕ) : ℝ) * st1.stepLength)
        else st1
    | none => st1
  { st2 with lastUpdateTime := now }

/-- `MappingProcessor.checkLoopClosure` (src/unnamed/part_006, lines
127–145): false below 10 points, otherwise true exactly when the first
and last points are less than 0.5 m apart. -/
def checkLoopClosure (st : ProcState) : Prop :=
  if st.points.length < 10 then False
  else euclidDist st.points.headI st.points.getLastI < 0.5

/-- `MappingProcessor.closeLoop` (src/unnamed/part_006, lines 151–161):
below 3 points return the unmodified sequence; otherwise push a copy of
the first point and return the simplified result (which also becomes the
new state of `points`). -/
def closeLoop (st : ProcState) : ProcState × List Point :=
  if st.points.length < 3 then (st, st.points)
  else
    let simplified := simplifyPoints (st.points ++ [st.points.headI])
    ({ st with points := simplified }, simplified)

/-- `MappingProcessor.calibrate` (src/unnamed/part_006, lines 277–281):
store `(360 - currentHeading) % 360` as the calibration offset. -/
def calibrate (st : ProcState) (currentHeading : ℝ) : ProcState :=
  { st with calibrationOffset := jsMod (360 - currentHeading) 360 }

/-- The tunable constants of the step detector
(`STEP_DETECTION_CONFIG` in src/src/hooks/useSensors.ts, lines 29–48). -/
structure DetectorConfig where
  threshold : ℝ
  debounceTime : ℝ
  windowSize : ℕ

/-- The iOS values of `STEP_DETECTION_CONFIG`: threshold 1.2, debounce
250 ms, window of 5 samples. -/
def iosStepConfig : DetectorConfig := ⟨1.2, 250, 5⟩

/-- The mutable state of the step detector: the acceleration sliding
window (`accelerationWindowRef`), the last accepted step time
(`stepDetectorRef`) and the running step count. -/
structure DetectorState where
  window : List ℝ
  lastStepTime : ℝ
  stepCount : ℕ

/-- Acceleration magnitude `sqrt (x² + y² + z²)`. -/
def accMagnitude (a : Vec3) : ℝ :=
  Real.sqrt (a.x ^ 2 + a.y ^ 2 + a.z ^ 2)

/-- Push a magnitude onto the sliding window, evicting the oldest entry
when the window would exceed the configured size
(src/src/hooks/useSensors.ts, lines 204–208). -/
def pushWindow (cfg : DetectorConfig) (w : List ℝ) (m : ℝ) : List ℝ :=
  let w1 := w ++ [m]
  if cfg.windowSize < w1.length then w1.tail else w1

/-- `detectStep` (src/src/hooks/useSensors.ts, lines 197–222): reject the
sample outright while within the debounce interval; otherwise push its
magnitude into the window and, once the window is full, emit a step when
the magnitude deviates from the window mean by more than the threshold. -/
def detectStep (cfg : DetectorConfig) (ds : DetectorState) (now : ℝ)
    (a : Vec3) : DetectorState × Bool :=
  if now - ds.lastStepTime < cfg.debounceTime then (ds, false)
  else
    let m := accMagnitude a
    let w := pushWindow cfg ds.window m
    if w.length = cfg.windowSize then
      if cfg.threshold < |m - w.sum / (cfg.windowSize : ℝ)| then
        ({ window := w, lastStepTime := now, stepCount := ds.stepCount + 1 },
          true)
      else ({ ds with window := w }, false)
    else ({ ds with window := w }, false)

/-- Run the step detector over a timestamped sample sequence. -/
def runDetector (cfg : DetectorConfig) (ds : DetectorState) :
    List (ℝ × Vec3) → DetectorState
  | [] => ds
  | (now, a) :: rest => runDetector cfg (detectStep cfg ds now a).1 rest

/-- A sample sequence is calm when, at every point of the run, the
magnitude of the incoming sample would deviate from the mean of the
window as updated with it by at most the threshold (whenever that updated
window is full). -/
def calmRun (cfg : DetectorConfig) (ds : DetectorState) :
    List (ℝ × Vec3) → Prop
  | [] => True
  | (now, a) :: rest =>
      ((pushWindow cfg ds.window (accMagnitude a)).length = cfg.windowSize →
        |accMagnitude a -
          (pushWindow cfg ds.window (accMagnitude a)).sum /
            (cfg.windowSize : ℝ)| ≤ cfg.threshold) ∧
      calmRun cfg (detectStep cfg ds now a).1 rest

/-- Ascending numeric sort, as `readings.sort((a, b) => a - b)` performs
in `handleCalibrate` (src/src/screens/MappingScreen.tsx, line 592).
Readings are plain numbers, so equal sort keys are equal values and the
choice of stable sorting algorithm is immaterial. -/
def sortReadingsAsc (readings : List ℝ) : List ℝ :=
  List.insertionSort (· ≤ ·) readings

/-- The outlier trim of `handleCalibrate` (line 594): with more than two
readings, `slice(1, -1)` drops the first and last of the sorted array. -/
def trimOutliers (sorted : List ℝ) : List ℝ :=
  if 2 < sorted.length then (sorted.drop 1).dropLast else sorted

/-- Arithmetic mean, `reduce((acc, val) => acc + val, 0) / length`. -/
def averageOf (l : List ℝ) : ℝ := l.sum / (l.length : ℝ)

/-- The completion step of the calibration session
(src/src/screens/MappingScreen.tsx, lines 588–634): with at least 5
readings, sort, trim, average and apply `calibrate`; with fewer, report
failure and leave the processor untouched. -/
def handleCalibrateCompletion (st : ProcState) (readings : List ℝ) :
    ProcState :=
  if 5 ≤ readings.length then
    calibrate st (averageOf (trimOutliers (sortReadingsAsc readings)))
  else st

/-- The public operations of the Position Integrator, for stating
reachable-state invariants. -/
inductive ProcOp where
  | reset (now : ℝ)
  | process (sd : SensorData) (now : ℝ)
  | checkLoop
  | closeLoopOp
  | calibrateOp (h : ℝ)
  | getPoints
  | getCurrentHeading
  | getTotalDistance

/-- Apply one operation to the processor state. `checkLoopClosure` and
the getters do not mutate state. -/
def applyOp (st : ProcState) : ProcOp → ProcState
  | .reset now => resetState st now
  | .process sd now => processSensorData st sd now
  | .checkLoop => st
  | .closeLoopOp => (closeLoop st).1
  | .calibrateOp h => calibrate st h
  | .getPoints => st
  | .getCurrentHeading => st
  | .getTotalDistance => st

/-- Walking straight: starting from a fresh processor with step length
`L` and no magnetometer data (heading stays 0), deliver pedometer totals
`1, 2, …, n` one call at a time. -/
def walkStraight (L now : ℝ) : ℕ → ProcState
  | 0 => initialState L now
  | n + 1 => processSensorData (walkStraight L now n) ⟨none, some (n + 1)⟩ now

/-- Concrete test path: the origin. -/
def ptA : Point := ⟨0, 0⟩

/-- Concrete test path: a point 3 m east of the origin. -/
def ptB : Point := ⟨3, 0⟩

/-- Concrete test path: a point 4 m east of the origin. -/
def ptC : Point := ⟨4, 0⟩

/-- A processor state holding the open collinear path `A, B, C`. -/
def cornerState : ProcState := ⟨0.75, [ptA, ptB, ptC], 0, 0, 0, 0, 0⟩

/-- A processor state with ten points, all at the origin. -/
def tenOriginsState : ProcState :=
  ⟨0.75, List.replicate 10 ⟨0, 0⟩, 0, 0, 0, 0, 0⟩

/-- A processor state with nine points, all at the origin. -/
def nineOriginsState : ProcState :=
  ⟨0.75, List.replicate 9 ⟨0, 0⟩, 0, 0, 0, 0, 0⟩

/-- A labelling of the three test points by natural numbers, used to
transport list facts about them into a decidable domain. -/
def labelPt (p : Point) : ℕ :=
  if p.x = 0 then 0 else if p.x = 3 then 1 else 2

/-- The collinear path traced by 100 unit steps north from the origin:
points `(0, 0), (0, 1), …, (0, 100)`. -/
def colPath : List Point :=
  (List.range 101).map fun i : ℕ => ⟨0, (i : ℝ)⟩

end WindowWise

namespace WindowWise

/-- Basic facts about `jsMod` for a non-negative dividend: the remainder
is the dividend shifted by an integer multiple of the modulus. -/
theorem jsMod_eq_sub_floor {x y : ℝ} (hx : 0 ≤ x) (hy : 0 < y) :
    jsMod x y = x - y * (⌊x / y⌋ : ℝ) := by
  unfold jsMod jsTrunc
  rw [if_pos (div_nonneg hx hy.le)]

theorem jsMod_nonneg_lt {x y : ℝ} (hx : 0 ≤ x) (hy : 0 < y) :
    0 ≤ jsMod x y ∧ jsMod x y < y := by
  rw [jsMod_eq_sub_floor hx hy]
  have hfr : x - y * (⌊x / y⌋ : ℝ) = y * Int.fract (x / y) := by
    rw [Int.fract]
    field_simp
  rw [hfr]
  constructor
  · exact mul_nonneg hy.le (Int.fract_nonneg _)
  · calc y * Int.fract (x / y) < y * 1 :=
          (mul_lt_mul_left hy).mpr (Int.fract_lt_one _)
      _ = y := mul_one y

theorem jsMod_eq_self {x y : ℝ} (hx : 0 ≤ x) (hxy : x < y) :
    jsMod x y = x := by
  have hy : 0 < y := lt_of_le_of_lt hx hxy
  rw [jsMod_eq_sub_floor hx hy]
  have h0 : ⌊x / y⌋ = 0 := by
    rw [Int.floor_eq_zero_iff]
    constructor
    · exact div_nonneg hx hy.le
    · rw [div_lt_one hy]; exact hxy
  rw [h0]
  push_cast
  ring

/-- The last element of a list ending in `x` is `x`. -/
theorem getLastI_concat {α : Type} [Inhabited α] (l : List α) (x : α) :
    (l ++ [x]).getLastI = x := by
  rw [List.getLastI_eq_getLast?, List.getLast?_concat]

/-- Indexing a mapped range with a default: inside bounds it is just the
function value. -/
theorem getD_map_range {α : Type} (g : ℕ → α) (n i : ℕ) (d : α)
    (h : i < n) : ((List.range n).map g).getD i d = g i := by
  rw [List.getD_eq_getElem?_getD, List.getElem?_map, List.getElem?_range h]
  rfl

/-- The head of a mapped non-empty range is the image of `0`. -/
theorem headI_map_range {α : Type} [Inhabited α] (g : ℕ → α) (n : ℕ)
    (h : 0 < n) : ((List.range n).map g).headI = g 0 := by
  obtain ⟨m, rfl⟩ := Nat.exists_eq_add_of_lt h
  rw [List.range_succ_eq_map]
  rfl

/-- Claim C2: `checkLoopClosure` rejects point sequences shorter than 10
points outright, and with at least 10 points it holds exactly when the
first and last points are less than 0.5 m apart. -/
theorem claimC2 (st : ProcState) :
    (st.points.length < 10 → ¬ checkLoopClosure st) ∧
    (10 ≤ st.points.length →
      (checkLoopClosure st ↔
        euclidDist st.points.headI st.points.getLastI < 0.5)) := by
  constructor
  · intro h
    unfold checkLoopClosure
    rw [if_pos h]
    exact not_false
  · intro h
    unfold checkLoopClosure
    rw [if_neg (by omega)]

/-- Witness for C2: a ten-origin path closes the loop, a nine-point path
never does. -/
theorem claimC2_witness :
    checkLoopClosure tenOriginsState ∧ ¬ checkLoopClosure nineOriginsState := by
  constructor
  · apply ((claimC2 tenOriginsState).2 (by simp [tenOriginsState])).mpr
    have h1 : tenOriginsState.points.headI = (⟨0, 0⟩ : Point) := by
      simp [tenOriginsState, List.replicate]
    have h2 : tenOriginsState.points.getLastI = (⟨0, 0⟩ : Point) := by
      have : tenOriginsState.points = List.replicate 9 ⟨0, 0⟩ ++ [⟨0, 0⟩] := by
        simp [tenOriginsState, ← List.replicate_succ']
      rw [this, getLastI_concat]
    rw [h1, h2]
    unfold euclidDist
    norm_num
  · exact (claimC2 nineOriginsState).1 (by simp [nineOriginsState])

/-- Claim C10: a `processSensorData` call whose pedometer total does not
exceed the recorded step count (or has no pedometer data) leaves
`points`, `stepCount` and `totalDistance` unchanged — and indeed every
other field except the heading and the last-update timestamp: the
calibration offset and the configured step length are also untouched,
and the timestamp is stamped with the call time. -/
theorem claimC10 (st : ProcState) (sd : SensorData) (now : ℝ)
    (h : ∀ s, sd.pedometer = some s → s ≤ st.stepCount) :
    (processSensorData st sd now).points = st.points ∧
    (processSensorData st sd now).stepCount = st.stepCount ∧
    (processSensorData st sd now).totalDistance = st.totalDistance ∧
    (processSensorData st sd now).calibrationOffset =
      st.calibrationOffset ∧
    (processSensorData st sd now).stepLength = st.stepLength ∧
    (processSensorData st sd now).lastUpdateTime = now := by
  obtain ⟨mag, ped⟩ := sd
  cases ped with
  | none => cases mag <;> simp [processSensorData]
  | some s =>
    have hs : s ≤ st.stepCount := h s rfl
    cases mag <;>
      simp [processSensorData, Nat.not_lt.mpr hs]

/-- Witness for C10: a fresh processor fed a zero pedometer total keeps
every field but the timestamp. -/
theorem claimC10_witness :
    (processSensorData (initialState 0.75 0) ⟨none, some 0⟩ 5).points =
      (initialState 0.75 0).points ∧
    (processSensorData (initialState 0.75 0) ⟨none, some 0⟩ 5).stepCount =
      (initialState 0.75 0).stepCount ∧
    (processSensorData (initialState 0.75 0) ⟨none, some 0⟩ 5).totalDistance =
      (initialState 0.75 0).totalDistance ∧
    (processSensorData (initialState 0.75 0)
        ⟨none, some 0⟩ 5).calibrationOffset =
      (initialState 0.75 0).calibrationOffset ∧
    (processSensorData (initialState 0.75 0) ⟨none, some 0⟩ 5).stepLength =
      (initialState 0.75 0).stepLength ∧
    (processSensorData (initialState 0.75 0) ⟨none, some 0⟩ 5).lastUpdateTime =
      5 := by
  apply claimC10
  intro s hs
  cases hs
  exact Nat.le_refl _

/-- Inserting a value into a run of copies of itself prepends it. -/
theorem orderedInsert_replicate_self (n : ℕ) (x : ℝ) :
    List.orderedInsert (· ≤ ·) x (List.replicate n x) =
      List.replicate (n + 1) x := by
  cases n with
  | zero => rfl
  | succ k =>
    rw [List.replicate_succ, List.orderedInsert, if_pos le_rfl]
    simp [List.replicate_succ]

/-- A constant list of readings is already sorted. -/
theorem sortReadingsAsc_replicate (n : ℕ) (x : ℝ) :
    sortReadingsAsc (List.replicate n x) = List.replicate n x := by
  induction n with
  | zero => rfl
  | succ k ih =>
    unfold sortReadingsAsc at *
    rw [List.replicate_succ, List.insertionSort, ih,
      orderedInsert_replicate_self, List.replicate_succ]

/-- Claim C6: calibration completion with fewer than 5 readings leaves
the processor untouched; with at least 5, the offset becomes
`(360 - avg) % 360` where `avg` averages the sorted readings with first
and last dropped; six identical readings of 90° produce the offset 270,
which normalises the reading 90° to 0°. -/
theorem claimC6 :
    (∀ (st : ProcState) (readings : List ℝ), readings.length < 5 →
      handleCalibrateCompletion st readings = st) ∧
    (∀ (st : ProcState) (readings : List ℝ), 5 ≤ readings.length →
      (handleCalibrateCompletion st readings).calibrationOffset =
        jsMod (360 - averageOf (trimOutliers (sortReadingsAsc readings)))
          360) ∧
    (∀ st : ProcState,
      (handleCalibrateCompletion st
        (List.replicate 6 90)).calibrationOffset = 270 ∧
      jsMod (90 + 270) 360 = 0) := by
  refine ⟨?_, ?_, ?_⟩
  · intro st readings h
    unfold handleCalibrateCompletion
    rw [if_neg (by omega)]
  · intro st readings h
    unfold handleCalibrateCompletion calibrate
    rw [if_pos h]
  · intro st
    constructor
    · unfold handleCalibrateCompletion calibrate
      rw [if_pos (by simp), sortReadingsAsc_replicate]
      have htrim : trimOutliers (List.replicate 6 (90 : ℝ)) =
          List.replicate 4 90 := by
        unfold trimOutliers
        rw [if_pos (by simp)]
        rfl
      rw [htrim]
      have havg : averageOf (List.replicate 4 (90 : ℝ)) = 90 := by
        unfold averageOf
        norm_num [List.sum_replicate]
      rw [havg]
      have h270 : (360 : ℝ) - 90 = 270 := by norm_num
      rw [h270, jsMod_eq_self (by norm_num) (by norm_num)]
    · have h360 : (90 : ℝ) + 270 = 360 := by norm_num
      rw [h360]
      unfold jsMod jsTrunc
      have hq : (360 : ℝ) / 360 = 1 := by norm_num
      rw [hq, if_pos (by norm_num), Int.floor_one]
      norm_num

/-- Witness for C6: a single-reading session fails (state unchanged);
five distinct readings get the trimmed-average offset. -/
theorem claimC6_witness :
    handleCalibrateCompletion (initialState 1 0) [0] = initialState 1 0 ∧
    (handleCalibrateCompletion (initialState 1 0)
        [1, 2, 3, 4, 5]).calibrationOffset =
      jsMod (360 - averageOf (trimOutliers (sortReadingsAsc [1, 2, 3, 4, 5])))
        360 :=
  ⟨claimC6.1 _ _ (by norm_num), claimC6.2.1 _ _ (by norm_num)⟩

/-- Counterexample for C8: a sample arriving within the debounce
interval is discarded before its magnitude reaches the sliding window.
At 1100 ms, with the last step at 1000 ms and the iOS debounce of 250 ms,
the window stays empty instead of receiving the sample's magnitude. -/
theorem claimC8_counterexample :
    (detectStep iosStepConfig ⟨[], 1000, 0⟩ 1100 ⟨0, 0, 0⟩).1.window = [] ∧
    ([] : List ℝ) ≠ [accMagnitude ⟨0, 0, 0⟩] := by
  constructor
  · have h : detectStep iosStepConfig ⟨[], 1000, 0⟩ 1100 ⟨0, 0, 0⟩ =
        (⟨[], 1000, 0⟩, false) := by
      unfold detectStep
      rw [if_pos]
      show (1100 : ℝ) - 1000 < iosStepConfig.debounceTime
      norm_num [iosStepConfig]
    rw [h]
  · simp

/-- Claim C8 as amended: outside the debounce interval, every sample's
magnitude is pushed into the sliding window even when no step is
emitted; a sample inside the debounce interval is discarded entirely,
leaving the detector state (window included) unchanged. -/
theorem claimC8 (cfg : DetectorConfig) (ds : DetectorState) (now : ℝ)
    (a : Vec3) :
    (now - ds.lastStepTime < cfg.debounceTime →
      (detectStep cfg ds now a).1 = ds) ∧
    (cfg.debounceTime ≤ now - ds.lastStepTime →
      (detectStep cfg ds now a).1.window =
        pushWindow cfg ds.window (accMagnitude a)) := by
  constructor
  · intro h
    unfold detectStep
    rw [if_pos h]
  · intro h
    simp only [detectStep]
    rw [if_neg (not_lt.mpr h)]
    split
    · split <;> rfl
    · rfl

/-- Witness for C8: both branches of the amended statement at concrete
inputs — a sample 50 ms after a step at time 0 is dropped, a sample
500 ms after is pushed. -/
theorem claimC8_witness :
    (detectStep iosStepConfig ⟨[], 0, 0⟩ 50 ⟨0, 0, 0⟩).1 = ⟨[], 0, 0⟩ ∧
    (detectStep iosStepConfig ⟨[], 0, 0⟩ 500 ⟨0, 0, 0⟩).1.window =
      pushWindow iosStepConfig [] (accMagnitude ⟨0, 0, 0⟩) :=
  ⟨(claimC8 iosStepConfig ⟨[], 0, 0⟩ 50 ⟨0, 0, 0⟩).1
      (by norm_num [iosStepConfig]),
    (claimC8 iosStepConfig ⟨[], 0, 0⟩ 500 ⟨0, 0, 0⟩).2
      (by norm_num [iosStepConfig])⟩

/-- Pushing grows the window by at most one element. -/
theorem pushWindow_length_le (cfg : DetectorConfig) (w : List ℝ) (m : ℝ) :
    (pushWindow cfg w m).length ≤ w.length + 1 := by
  simp only [pushWindow]
  split
  · simp [List.length_tail]
  · simp

/-- A sample whose deviation stays within the threshold never increments
the step count. -/
theorem detectStep_stepCount_of_calm (cfg : DetectorConfig)
    (ds : DetectorState) (now : ℝ) (a : Vec3)
    (h : (pushWindow cfg ds.window (accMagnitude a)).length = cfg.windowSize →
      |accMagnitude a -
        (pushWindow cfg ds.window (accMagnitude a)).sum /
          (cfg.windowSize : ℝ)| ≤ cfg.threshold) :
    (detectStep cfg ds now a).1.stepCount = ds.stepCount := by
  simp only [detectStep]
  split_ifs with h1 h2 h3
  · rfl
  · exact absurd h3 (not_lt.mpr (h h2))
  · rfl
  · rfl

/-- A sample that does not fill the window never increments the step
count. -/
theorem detectStep_stepCount_of_ne (cfg : DetectorConfig)
    (ds : DetectorState) (now : ℝ) (a : Vec3)
    (h : (pushWindow cfg ds.window (accMagnitude a)).length ≠ cfg.windowSize) :
    (detectStep cfg ds now a).1.stepCount = ds.stepCount := by
  simp only [detectStep]
  split_ifs with h1
  · rfl
  · rfl

/-- After one sample the window is either untouched (debounce) or the
pushed window. -/
theorem detectStep_window_or (cfg : DetectorConfig) (ds : DetectorState)
    (now : ℝ) (a : Vec3) :
    (detectStep cfg ds now a).1.window = ds.window ∨
    (detectStep cfg ds now a).1.window =
      pushWindow cfg ds.window (accMagnitude a) := by
  simp only [detectStep]
  split_ifs
  · exact Or.inl rfl
  · exact Or.inr rfl
  · exact Or.inr rfl
  · exact Or.inr rfl

/-- A calm run never increments the step count. -/
theorem runDetector_calm (cfg : DetectorConfig) :
    ∀ (samples : List (ℝ × Vec3)) (ds : DetectorState),
      calmRun cfg ds samples →
      (runDetector cfg ds samples).stepCount = ds.stepCount := by
  intro samples
  induction samples with
  | nil => intro ds _; rfl
  | cons p rest ih =>
    intro ds hc
    obtain ⟨now, a⟩ := p
    simp only [calmRun] at hc
    obtain ⟨h1, h2⟩ := hc
    simp only [runDetector]
    rw [ih _ h2, detectStep_stepCount_of_calm cfg ds now a h1]

/-- A run shorter than the remaining window capacity never increments
the step count: the window is never full when checked. -/
theorem runDetector_short (cfg : DetectorConfig) :
    ∀ (samples : List (ℝ × Vec3)) (ds : DetectorState),
      ds.window.length + samples.length < cfg.windowSize →
      (runDetector cfg ds samples).stepCount = ds.stepCount := by
  intro samples
  induction samples with
  | nil => intro ds _; rfl
  | cons p rest ih =>
    intro ds h
    obtain ⟨now, a⟩ := p
    simp only [List.length_cons] at h
    have hpush := pushWindow_length_le cfg ds.window (accMagnitude a)
    have hlen : (pushWindow cfg ds.window (accMagnitude a)).length ≠
        cfg.windowSize := by omega
    have hwin : (detectStep cfg ds now a).1.window.length ≤
        ds.window.length + 1 := by
      rcases detectStep_window_or cfg ds now a with hw | hw <;> rw [hw]
      · omega
      · exact hpush
    simp only [runDetector]
    rw [ih _ (by omega)]
    exact detectStep_stepCount_of_ne cfg ds now a hlen

/-- Pushing the constant magnitude onto an all-constant window keeps it
all-constant. -/
theorem pushWindow_const {cfg : DetectorConfig} {w : List ℝ} {m : ℝ}
    (h : ∀ x ∈ w, x = m) : ∀ x ∈ pushWindow cfg w m, x = m := by
  intro x hx
  simp only [pushWindow] at hx
  split at hx
  · have hx' := List.mem_of_mem_tail hx
    rcases List.mem_append.mp hx' with h1 | h1
    · exact h x h1
    · simpa using h1
  · rcases List.mem_append.mp hx with h1 | h1
    · exact h x h1
    · simpa using h1

/-- A perfectly constant sample stream is calm: the window mean equals
the constant magnitude, so the deviation is zero. -/
theorem const_calm (cfg : DetectorConfig) (a : Vec3)
    (h0 : 0 ≤ cfg.threshold) (hw : 0 < cfg.windowSize) :
    ∀ (ts : List ℝ) (ds : DetectorState),
      (∀ x ∈ ds.window, x = accMagnitude a) →
      calmRun cfg ds (ts.map fun t => (t, a)) := by
  intro ts
  induction ts with
  | nil => intro ds _; simp only [List.map_nil, calmRun]
  | cons t rest ih =>
    intro ds hds
    simp only [List.map_cons, calmRun]
    constructor
    · intro hfull
      have hsum : (pushWindow cfg ds.window (accMagnitude a)).sum =
          (pushWindow cfg ds.window (accMagnitude a)).length • accMagnitude a :=
        List.sum_eq_card_nsmul _ _ (pushWindow_const hds)
      rw [hsum, hfull]
      have hne : (cfg.windowSize : ℝ) ≠ 0 := Nat.cast_ne_zero.mpr hw.ne'
      have havg : ((cfg.windowSize • accMagnitude a) : ℝ) /
          (cfg.windowSize : ℝ) = accMagnitude a := by
        rw [nsmul_eq_mul]
        field_simp
      rw [havg]
      simpa using h0
    · apply ih
      rcases detectStep_window_or cfg ds t a with hw' | hw' <;> rw [hw']
      · exact hds
      · exact pushWindow_const hds

/-- Claim C7: the step detector emits no steps on a calm sample stream,
on any stream too short to fill the window, and on a perfectly constant
(still-device) stream. -/
theorem claimC7 :
    (∀ (cfg : DetectorConfig) (ds : DetectorState)
        (samples : List (ℝ × Vec3)), calmRun cfg ds samples →
      (runDetector cfg ds samples).stepCount = ds.stepCount) ∧
    (∀ (cfg : DetectorConfig) (ds : DetectorState)
        (samples : List (ℝ × Vec3)), ds.window = [] →
      samples.length < cfg.windowSize →
      (runDetector cfg ds samples).stepCount = ds.stepCount) ∧
    (∀ (cfg : DetectorConfig) (ds : DetectorState) (a : Vec3)
        (ts : List ℝ), 0 ≤ cfg.threshold → 0 < cfg.windowSize →
      ds.window = [] →
      (runDetector cfg ds (ts.map fun t => (t, a))).stepCount =
        ds.stepCount) := by
  refine ⟨fun cfg ds samples => runDetector_calm cfg samples ds, ?_, ?_⟩
  · intro cfg ds samples hnil hlen
    apply runDetector_short
    rw [hnil]
    simpa using hlen
  · intro cfg ds a ts h0 hw hnil
    apply runDetector_calm
    apply const_calm cfg a h0 hw
    rw [hnil]
    intro x hx
    cases hx

/-- Witness for C7: all three parts at concrete inputs — a calm single
sample, a two-sample stream shorter than the iOS window, and a constant
stream. -/
theorem claimC7_witness :
    (runDetector iosStepConfig ⟨[], 0, 0⟩ [(1000, ⟨0, 0, 0⟩)]).stepCount = 0 ∧
    (runDetector iosStepConfig ⟨[], 0, 0⟩
      [(1, ⟨1, 2, 2⟩), (2, ⟨0, 1, 0⟩)]).stepCount = 0 ∧
    (runDetector iosStepConfig ⟨[], 0, 0⟩
      ([5, 6, 7].map fun t => (t, ⟨0, 0, 9⟩))).stepCount = 0 := by
  refine ⟨?_, ?_, ?_⟩
  · have hcalm : calmRun iosStepConfig ⟨[], 0, 0⟩ [(1000, ⟨0, 0, 0⟩)] := by
      simp only [calmRun]
      refine ⟨?_, trivial⟩
      intro hfull
      exfalso
      norm_num [pushWindow, iosStepConfig] at hfull
    exact claimC7.1 _ _ _ hcalm
  · exact claimC7.2.1 _ _ _ rfl (by norm_num [iosStepConfig])
  · exact claimC7.2.2 _ _ _ _ (by norm_num [iosStepConfig])
      (by norm_num [iosStepConfig]) rfl

/-- The simplifier never returns an empty list from a non-empty input. -/
theorem simplifyPoints_ne_nil {pts : List Point} (h : pts ≠ []) :
    simplifyPoints pts ≠ [] := by
  unfold simplifyPoints
  split
  · exact h
  · intro hcon
    have hlen := List.length_insertionSort
      (fun a b => findIdxPt a pts ≤ findIdxPt b pts)
      (pts.headI :: (dpSimplify pts 0 (pts.length - 1) ++ [pts.getLastI]))
    rw [hcon] at hlen
    simp at hlen

/-- Appending a step point always leaves a non-empty point list. -/
theorem addPoint_ne_nil (st : ProcState) (d : ℝ) :
    (addPointFromHeadingAndDistance st d).points ≠ [] := by
  simp only [addPointFromHeadingAndDistance]
  split_ifs
  · simp
  · exact simplifyPoints_ne_nil (by simp)
  · simp

/-- Appending a step point touches only `points`. -/
theorem addPoint_stepLength (st : ProcState) (d : ℝ) :
    (addPointFromHeadingAndDistance st d).stepLength = st.stepLength := by
  simp only [addPointFromHeadingAndDistance]
  split_ifs <;> rfl

/-- Appending a step point leaves `totalDistance` unchanged. -/
theorem addPoint_totalDistance (st : ProcState) (d : ℝ) :
    (addPointFromHeadingAndDistance st d).totalDistance =
      st.totalDistance := by
  simp only [addPointFromHeadingAndDistance]
  split_ifs <;> rfl

/-- Appending a step point leaves `stepCount` unchanged. -/
theorem addPoint_stepCount (st : ProcState) (d : ℝ) :
    (addPointFromHeadingAndDistance st d).stepCount = st.stepCount := by
  simp only [addPointFromHeadingAndDistance]
  split_ifs <;> rfl

/-- Processing sensor data preserves the configured step length. -/
theorem processSensorData_stepLength (st : ProcState) (sd : SensorData)
    (now : ℝ) : (processSensorData st sd now).stepLength = st.stepLength := by
  rcases sd with ⟨mag, ped⟩
  rcases mag with _ | m <;> rcases ped with _ | s <;>
    simp [processSensorData, apply_ite ProcState.stepLength,
      addPoint_stepLength]

/-- Processing sensor data preserves a non-empty point list. -/
theorem processSensorData_ne_nil (st : ProcState) (sd : SensorData)
    (now : ℝ) (h : st.points ≠ []) :
    (processSensorData st sd now).points ≠ [] := by
  rcases sd with ⟨mag, ped⟩
  rcases mag with _ | m <;> rcases ped with _ | s <;>
    simp only [processSensorData] <;>
    first
      | exact h
      | (split_ifs with hs
         · exact addPoint_ne_nil _ _
         · exact h)

/-- Processing sensor data never decreases `totalDistance` when the
configured step length is non-negative. -/
theorem processSensorData_dist_mono (st : ProcState) (sd : SensorData)
    (now : ℝ) (h : 0 ≤ st.stepLength) :
    st.totalDistance ≤ (processSensorData st sd now).totalDistance := by
  rcases sd with ⟨mag, ped⟩
  rcases mag with _ | m <;> rcases ped with _ | s <;>
    simp only [processSensorData] <;>
    first
      | exact le_refl _
      | (split_ifs with hs
         · rw [addPoint_totalDistance]
           exact le_add_of_nonneg_right
             (mul_nonneg (Nat.cast_nonneg _) h)
         · exact le_refl _)

/-- `closeLoop` preserves a non-empty point list. -/
theorem closeLoop_ne_nil (st : ProcState) (h : st.points ≠ []) :
    (closeLoop st).1.points ≠ [] := by
  unfold closeLoop
  split
  · exact h
  · exact simplifyPoints_ne_nil (by simp)

/-- `closeLoop` touches only `points`. -/
theorem closeLoop_fields (st : ProcState) :
    (closeLoop st).1.totalDistance = st.totalDistance ∧
    (closeLoop st).1.stepLength = st.stepLength := by
  unfold closeLoop
  split
  · exact ⟨rfl, rfl⟩
  · exact ⟨rfl, rfl⟩

/-- One operation preserves the session invariant: non-empty points,
non-negative distance, and an unchanged non-negative step length. -/
theorem applyOp_inv (st : ProcState) (op : ProcOp)
    (h1 : st.points ≠ []) (h2 : 0 ≤ st.totalDistance)
    (h3 : 0 ≤ st.stepLength) :
    (applyOp st op).points ≠ [] ∧ 0 ≤ (applyOp st op).totalDistance ∧
    (applyOp st op).stepLength = st.stepLength := by
  cases op with
  | reset now => exact ⟨by simp [applyOp, resetState], le_refl 0, rfl⟩
  | process sd now =>
    exact ⟨processSensorData_ne_nil st sd now h1,
      le_trans h2 (processSensorData_dist_mono st sd now h3),
      processSensorData_stepLength st sd now⟩
  | checkLoop => exact ⟨h1, h2, rfl⟩
  | closeLoopOp =>
    exact ⟨closeLoop_ne_nil st h1, (closeLoop_fields st).1 ▸ h2,
      (closeLoop_fields st).2⟩
  | calibrateOp hdg => exact ⟨h1, h2, rfl⟩
  | getPoints => exact ⟨h1, h2, rfl⟩
  | getCurrentHeading => exact ⟨h1, h2, rfl⟩
  | getTotalDistance => exact ⟨h1, h2, rfl⟩

/-- The invariant propagates through any operation sequence. -/
theorem foldl_applyOp_inv :
    ∀ (ops : List ProcOp) (st : ProcState), st.points ≠ [] →
      0 ≤ st.totalDistance → 0 ≤ st.stepLength →
      (ops.foldl applyOp st).points ≠ [] ∧
      0 ≤ (ops.foldl applyOp st).totalDistance := by
  intro ops
  induction ops with
  | nil => intro st h1 h2 _; exact ⟨h1, h2⟩
  | cons op rest ih =>
    intro st h1 h2 h3
    obtain ⟨g1, g2, g3⟩ := applyOp_inv st op h1 h2 h3
    exact ih (applyOp st op) g1 g2 (g3 ▸ h3)

/-- Claim C9: from a freshly constructed processor with a non-negative
configured step length, every sequence of operations leaves a non-empty
point list and a non-negative total distance; and no operation other
than `reset` ever decreases `totalDistance`. -/
theorem claimC9 :
    (∀ (L now0 : ℝ) (ops : List ProcOp), 0 ≤ L →
      (ops.foldl applyOp (initialState L now0)).points ≠ [] ∧
      0 ≤ (ops.foldl applyOp (initialState L now0)).totalDistance) ∧
    (∀ (st : ProcState) (op : ProcOp), 0 ≤ st.stepLength →
      (∀ now, op ≠ ProcOp.reset now) →
      st.totalDistance ≤ (applyOp st op).totalDistance) := by
  constructor
  · intro L now0 ops hL
    apply foldl_applyOp_inv ops (initialState L now0)
    · simp [initialState, resetState]
    · exact le_refl 0
    · exact hL
  · intro st op hL hop
    cases op with
    | reset now => exact absurd rfl (hop now)
    | process sd now => exact processSensorData_dist_mono st sd now hL
    | checkLoop => exact le_refl _
    | closeLoopOp => exact le_of_eq (closeLoop_fields st).1.symm
    | calibrateOp hdg => exact le_refl _
    | getPoints => exact le_refl _
    | getCurrentHeading => exact le_refl _
    | getTotalDistance => exact le_refl _

/-- Witness for C9: a tiny concrete session — a loop-closure query after
construction — keeps the invariant, and `closeLoop` does not decrease
the distance. -/
theorem claimC9_witness :
    ((List.foldl applyOp (initialState 1 0) [ProcOp.checkLoop]).points ≠ [] ∧
      0 ≤ (List.foldl applyOp (initialState 1 0)
        [ProcOp.checkLoop]).totalDistance) ∧
    (initialState 1 0).totalDistance ≤
      (applyOp (initialState 1 0) ProcOp.closeLoopOp).totalDistance :=
  ⟨claimC9.1 1 0 [ProcOp.checkLoop] (by norm_num),
    claimC9.2 (initialState 1 0) ProcOp.closeLoopOp (by norm_num [initialState, resetState])
      (by intro now h; exact ProcOp.noConfusion h)⟩

/-- `atan2 0 1` — a magnetometer sample pointing along the x axis — has
angle 0. -/
theorem atan2_zero_one : atan2 0 1 = 0 := by
  unfold atan2
  have h1 : (⟨1, 0⟩ : ℂ) = 1 := by simp [Complex.ext_iff]
  rw [h1, Complex.arg_one]

/-- Counterexample for C3: at the sample `(1, 0, 0)` with offset 0 the
code computes heading 90 (it rotates by `+90` before normalising), while
the claimed formula `(atan2 degrees + offset) mod 360` gives 0. -/
theorem claimC3_counterexample :
    updateHeadingDegrees ⟨1, 0, 0⟩ 0 = 90 ∧
    specHeadingEstimate ⟨1, 0, 0⟩ 0 = 0 ∧ (90 : ℝ) ≠ 0 := by
  refine ⟨?_, ?_, by norm_num⟩
  · simp only [updateHeadingDegrees]
    rw [show atan2 (Vec3.y ⟨1, 0, 0⟩) (Vec3.x ⟨1, 0, 0⟩) = 0 from
      atan2_zero_one]
    rw [show (0 : ℝ) * 180 / Real.pi + 90 = 90 by norm_num]
    rw [if_neg (by norm_num)]
    rw [show jsMod (90 : ℝ) 360 = 90 from
      jsMod_eq_self (by norm_num) (by norm_num), add_zero]
    exact jsMod_eq_self (by norm_num) (by norm_num)
  · simp only [specHeadingEstimate]
    rw [show atan2 (Vec3.y ⟨1, 0, 0⟩) (Vec3.x ⟨1, 0, 0⟩) = 0 from
      atan2_zero_one]
    rw [show (0 : ℝ) * 180 / Real.pi = 0 by norm_num]
    rw [show jsMod (0 : ℝ) 360 = 0 from
      jsMod_eq_self (by norm_num) (by norm_num), add_zero]
    exact jsMod_eq_self (by norm_num) (by norm_num)

/-- Claim C3 as amended: the computed heading is the `atan2` degrees
rotated by `+90`, normalised, plus the offset, modulo 360 — equivalently
it differs from `atan2·180/π + 90 + offset` by an integer multiple of
360 — and it always lies in `[0, 360)` whenever the stored offset is non-negative.
Determinism is immediate since the embedding is a pure function. -/
theorem claimC3 (m : Vec3) (c : ℝ) (hc0 : 0 ≤ c) :
    (0 ≤ updateHeadingDegrees m c ∧ updateHeadingDegrees m c < 360) ∧
    (∃ k : ℤ, updateHeadingDegrees m c =
      atan2 m.y m.x * 180 / Real.pi + 90 + c - 360 * k) := by
  have hπ := Real.pi_pos
  set r := atan2 m.y m.x with hr
  have hrlb : -Real.pi < r := Complex.neg_pi_lt_arg _
  have hrub : r ≤ Real.pi := Complex.arg_le_pi _
  set d0 := r * 180 / Real.pi + 90 with hd0
  have hlb : -90 < d0 := by
    rw [hd0]
    have hq : (-180 : ℝ) < r * 180 / Real.pi := by
      rw [lt_div_iff₀ hπ]
      nlinarith
    linarith
  have hub : d0 ≤ 270 := by
    rw [hd0]
    have hq : r * 180 / Real.pi ≤ 180 := by
      rw [div_le_iff₀ hπ]
      nlinarith
    linarith
  set d1 := if d0 < 0 then d0 + 360 else d0 with hd1
  have h1lb : 0 ≤ d1 := by rw [hd1]; split_ifs with h <;> linarith
  have h1ub : d1 < 360 := by rw [hd1]; split_ifs with h <;> linarith
  have hEq : updateHeadingDegrees m c = jsMod (d1 + c) 360 := by
    simp only [updateHeadingDegrees]
    rw [← hr, ← hd0, ← hd1, jsMod_eq_self h1lb h1ub]
  have hsum0 : 0 ≤ d1 + c := by linarith
  have h360 : (0 : ℝ) < 360 := by norm_num
  constructor
  · rw [hEq]
    exact jsMod_nonneg_lt hsum0 h360
  · rw [hEq, jsMod_eq_sub_floor hsum0 h360]
    by_cases h : d0 < 0
    · refine ⟨⌊(d1 + c) / 360⌋ - 1, ?_⟩
      have he : d1 = d0 + 360 := by rw [hd1, if_pos h]
      rw [he, hd0]
      push_cast
      ring
    · refine ⟨⌊(d1 + c) / 360⌋, ?_⟩
      have he : d1 = d0 := by rw [hd1, if_neg h]
      rw [he, hd0]

/-- Witness for C3: the amended statement at the sample `(0, 1, 0)` with
offset 30. -/
theorem claimC3_witness :
    (0 ≤ updateHeadingDegrees ⟨0, 1, 0⟩ 30 ∧
      updateHeadingDegrees ⟨0, 1, 0⟩ 30 < 360) ∧
    (∃ k : ℤ, updateHeadingDegrees ⟨0, 1, 0⟩ 30 =
      atan2 (Vec3.y ⟨0, 1, 0⟩) (Vec3.x ⟨0, 1, 0⟩) * 180 / Real.pi +
        90 + 30 - 360 * k) :=
  claimC3 ⟨0, 1, 0⟩ 30 (by norm_num)

/-- The displacement appended per accepted pedometer update has length
exactly the accumulated distance (for a non-negative distance): the sine
and cosine components square-sum to one. -/
theorem euclidDist_stepDisplaced (st : ProcState) (d : ℝ) (hd : 0 ≤ d) :
    euclidDist st.points.getLastI (stepDisplacedPoint st d) = d := by
  unfold euclidDist stepDisplacedPoint
  set s := Real.sin (st.heading * (Real.pi / 180)) with hs
  set c := Real.cos (st.heading * (Real.pi / 180)) with hc
  have key : (st.points.getLastI.x + d * s - st.points.getLastI.x) ^ 2 +
      (st.points.getLastI.y + d * c - st.points.getLastI.y) ^ 2 = d ^ 2 := by
    have hsc : s ^ 2 + c ^ 2 = 1 := Real.sin_sq_add_cos_sq _
    calc (st.points.getLastI.x + d * s - st.points.getLastI.x) ^ 2 +
        (st.points.getLastI.y + d * c - st.points.getLastI.y) ^ 2
        = d ^ 2 * (s ^ 2 + c ^ 2) := by ring
      _ = d ^ 2 := by rw [hsc]; ring
  rw [key, Real.sqrt_sq hd]

/-- A step append below the simplification bound just appends the
displaced point. -/
theorem addPoint_small (st : ProcState) (d : ℝ) (h1 : st.points ≠ [])
    (h2 : st.points.length < 100) :
    addPointFromHeadingAndDistance st d =
      { st with points := st.points ++ [stepDisplacedPoint st d] } := by
  simp only [addPointFromHeadingAndDistance]
  rw [if_neg h1, if_neg (by
    simp only [List.length_append, List.length_singleton]
    omega)]

/-- A step append at or above 100 points appends the displaced point and
runs the simplifier. -/
theorem addPoint_big (st : ProcState) (d : ℝ) (h1 : st.points ≠ [])
    (h2 : 100 ≤ st.points.length) :
    addPointFromHeadingAndDistance st d =
      { st with
          points := simplifyPoints
            (st.points ++ [stepDisplacedPoint st d]) } := by
  simp only [addPointFromHeadingAndDistance]
  rw [if_neg h1, if_pos (by
    simp only [List.length_append, List.length_singleton]
    omega)]

/-- A magnetometer-free call with an accepted pedometer total delegates
to the step append on the bookkeeping-updated state. -/
theorem processSensorData_some (st : ProcState) (steps : ℕ) (now : ℝ)
    (h4 : st.stepCount < steps) :
    processSensorData st ⟨none, some steps⟩ now =
      { addPointFromHeadingAndDistance
          { st with
              stepCount := steps,
              totalDistance := st.totalDistance +
                ((steps - st.stepCount : ℕ) : ℝ) * st.stepLength }
          (((steps - st.stepCount : ℕ) : ℝ) * st.stepLength) with
        lastUpdateTime := now } := by
  simp only [processSensorData]
  rw [if_pos h4]

/-- An accepted pedometer update with at most 99 existing points: record
the new step total, accumulate the distance, and append the displaced
point (no simplification is triggered). -/
theorem processSensorData_step (st : ProcState) (steps : ℕ) (now : ℝ)
    (h1 : st.points ≠ []) (h2 : st.points.length < 100)
    (h4 : st.stepCount < steps) :
    processSensorData st ⟨none, some steps⟩ now =
      { st with
          points := st.points ++ [stepDisplacedPoint st
            (((steps - st.stepCount : ℕ) : ℝ) * st.stepLength)],
          stepCount := steps,
          totalDistance := st.totalDistance +
            ((steps - st.stepCount : ℕ) : ℝ) * st.stepLength,
          lastUpdateTime := now } := by
  rw [processSensorData_some st steps now h4]
  rw [addPoint_small
    { st with
        stepCount := steps,
        totalDistance := st.totalDistance +
          ((steps - st.stepCount : ℕ) : ℝ) * st.stepLength }
    (((steps - st.stepCount : ℕ) : ℝ) * st.stepLength) h1 h2]
  rfl

/-- An accepted pedometer update with at least 100 existing points:
as above, but the appended list is passed through the simplifier. -/
theorem processSensorData_step_big (st : ProcState) (steps : ℕ) (now : ℝ)
    (h1 : st.points ≠ []) (h2 : 100 ≤ st.points.length)
    (h4 : st.stepCount < steps) :
    processSensorData st ⟨none, some steps⟩ now =
      { st with
          points := simplifyPoints (st.points ++ [stepDisplacedPoint st
            (((steps - st.stepCount : ℕ) : ℝ) * st.stepLength)]),
          stepCount := steps,
          totalDistance := st.totalDistance +
            ((steps - st.stepCount : ℕ) : ℝ) * st.stepLength,
          lastUpdateTime := now } := by
  rw [processSensorData_some st steps now h4]
  rw [addPoint_big
    { st with
        stepCount := steps,
        totalDistance := st.totalDistance +
          ((steps - st.stepCount : ℕ) : ℝ) * st.stepLength }
    (((steps - st.stepCount : ℕ) : ℝ) * st.stepLength) h1 h2]
  rfl

/-- The state after `n ≤ 99` straight steps: the points are
`(0, 0), (0, L), …, (0, n·L)` in order, with step count `n`, total
distance `n·L`, and heading still 0. -/
theorem walkStraight_spec (L now : ℝ) :
    ∀ n : ℕ, n ≤ 99 →
      walkStraight L now n =
        ⟨L, (List.range (n + 1)).map (fun i : ℕ => ⟨0, (i : ℝ) * L⟩),
          0, now, 0, n, (n : ℝ) * L⟩ := by
  intro n
  induction n with
  | zero =>
    intro _
    show initialState L now = _
    rw [show List.range 1 = [0] from rfl]
    simp only [initialState, resetState, List.map_cons, List.map_nil]
    norm_num
  | succ k ih =>
    intro hk
    have hk' : k ≤ 99 := by omega
    show processSensorData (walkStraight L now k) ⟨none, some (k + 1)⟩ now = _
    rw [ih hk']
    rw [processSensorData_step _ (k + 1) now (by simp) (by simp; omega)
      (Nat.lt_succ_self k)]
    have hd : ((k + 1 - k : ℕ) : ℝ) = 1 := by
      rw [show k + 1 - k = 1 by omega]
      norm_num
    have hlast : ((List.range (k + 1)).map
        (fun i : ℕ => (⟨0, (i : ℝ) * L⟩ : Point))).getLastI =
        ⟨0, (k : ℝ) * L⟩ := by
      rw [List.range_succ, List.map_append]
      exact getLastI_concat _ _
    have hnew : stepDisplacedPoint
        ⟨L, (List.range (k + 1)).map (fun i : ℕ => ⟨0, (i : ℝ) * L⟩),
          0, now, 0, k, (k : ℝ) * L⟩
        (((k + 1 - k : ℕ) : ℝ) * L) = ⟨0, ((k : ℝ) + 1) * L⟩ := by
      unfold stepDisplacedPoint
      simp only [hlast, hd]
      rw [show (0 : ℝ) * (Real.pi / 180) = 0 from zero_mul _,
        Real.sin_zero, Real.cos_zero]
      norm_num
      ring
    rw [hd] at hnew
    simp only [hnew, hd]
    rw [show ((List.range (k + 1)).map
        (fun i : ℕ => (⟨0, (i : ℝ) * L⟩ : Point))) ++
          [(⟨0, ((k : ℝ) + 1) * L⟩ : Point)] =
        (List.range (k + 2)).map (fun i : ℕ => ⟨0, (i : ℝ) * L⟩) by
      rw [show k + 2 = (k + 1) + 1 from rfl, List.range_succ (k + 1),
        List.map_append, List.map_cons, List.map_nil]
      push_cast
      rfl]
    have hdist : (k : ℝ) * L + 1 * L = ((k + 1 : ℕ) : ℝ) * L := by
      push_cast
      ring
    rw [hdist]

/-- Claim C1 as amended: (1) every accepted magnetometer-free pedometer
update on a state with fewer than 100 points appends exactly the point
displaced from the previous last point by `newSteps · stepLength` in the
heading direction, sets the step count to the reported total, and grows
`totalDistance` by the Euclidean length of that displacement; (2) after
`N ≤ 99` straight unit-heading steps, the point at index `N` is exactly
`(0, N·L)` (beyond 99 points the auto-simplification of
`addPointFromHeadingAndDistance` collapses the collinear path, so the
index claim stops holding there). -/
theorem claimC1 :
    (∀ (st : ProcState) (steps : ℕ) (now : ℝ), st.points ≠ [] →
      st.points.length < 100 → 0 ≤ st.stepLength → st.stepCount < steps →
      (processSensorData st ⟨none, some steps⟩ now).points =
        st.points ++ [stepDisplacedPoint st
          (((steps - st.stepCount : ℕ) : ℝ) * st.stepLength)] ∧
      (processSensorData st ⟨none, some steps⟩ now).stepCount = steps ∧
      (processSensorData st ⟨none, some steps⟩ now).totalDistance =
        st.totalDistance + euclidDist st.points.getLastI
          (stepDisplacedPoint st
            (((steps - st.stepCount : ℕ) : ℝ) * st.stepLength))) ∧
    (∀ (L now : ℝ) (N : ℕ), 0 ≤ L → N ≤ 99 →
      (walkStraight L now N).points.getD N default = ⟨0, (N : ℝ) * L⟩ ∧
      (walkStraight L now N).points.length = N + 1) := by
  constructor
  · intro st steps now h1 h2 hL h4
    rw [processSensorData_step st steps now h1 h2 h4]
    refine ⟨rfl, rfl, ?_⟩
    rw [euclidDist_stepDisplaced st _
      (mul_nonneg (Nat.cast_nonneg _) hL)]
  · intro L now N hL hN
    rw [walkStraight_spec L now N hN]
    constructor
    · rw [getD_map_range _ _ _ _ (Nat.lt_succ_self N)]
    · simp

/-- Witness for C1: part (1) at a fresh processor accepting two steps,
part (2) after three straight steps of length 2. -/
theorem claimC1_witness :
    ((processSensorData (initialState 1 0) ⟨none, some 2⟩ 7).points =
        (initialState 1 0).points ++
          [stepDisplacedPoint (initialState 1 0)
            (((2 - (initialState 1 0).stepCount : ℕ) : ℝ) *
              (initialState 1 0).stepLength)] ∧
      (processSensorData (initialState 1 0) ⟨none, some 2⟩ 7).stepCount = 2 ∧
      (processSensorData (initialState 1 0) ⟨none, some 2⟩ 7).totalDistance =
        (initialState 1 0).totalDistance +
          euclidDist (initialState 1 0).points.getLastI
            (stepDisplacedPoint (initialState 1 0)
              (((2 - (initialState 1 0).stepCount : ℕ) : ℝ) *
                (initialState 1 0).stepLength))) ∧
    ((walkStraight 2 0 3).points.getD 3 default = ⟨0, (3 : ℕ) * 2⟩ ∧
      (walkStraight 2 0 3).points.length = 3 + 1) :=
  ⟨claimC1.1 (initialState 1 0) 2 7 (by simp [initialState, resetState])
      (by simp [initialState, resetState])
      (by simp [initialState, resetState]) (by simp [initialState, resetState]),
    claimC1.2 2 0 3 (by norm_num) (by norm_num)⟩

/-- If no scanned distance beats the running maximum, the scan returns
its start value. -/
theorem foldl_maxStep_nonpos (f : ℕ → ℝ) :
    ∀ l : List ℕ, (∀ i ∈ l, f i ≤ 0) →
      l.foldl (maxStep f) (0, 0) = (0, 0) := by
  intro l
  induction l with
  | nil => intro _; rfl
  | cons i rest ih =>
    intro h
    have hi : f i ≤ 0 := h i (List.mem_cons_self i rest)
    simp only [List.foldl_cons, maxStep]
    rw [if_neg (by simpa using not_lt.mpr hi)]
    exact ih fun j hj => h j (List.mem_cons_of_mem i hj)

/-- Reading the collinear path by index. -/
theorem colPath_getD (i : ℕ) (h : i < 101) :
    colPath.getD i default = ⟨0, (i : ℝ)⟩ := by
  unfold colPath
  exact getD_map_range _ _ _ _ h

/-- Every interior point of the collinear path lies exactly on the chord
from its first to its last point. -/
theorem colPath_dist (i : ℕ) (h1 : 1 ≤ i) (h2 : i < 100) :
    dpPointDist colPath 0 100 i = 0 := by
  unfold dpPointDist
  rw [colPath_getD 0 (by norm_num), colPath_getD 100 (by norm_num),
    colPath_getD i (by omega)]
  norm_num

/-- The interior scan of the collinear path finds no deviation at all. -/
theorem maxDistIdx_colPath : maxDistIdx colPath 0 100 = (0, 0) := by
  unfold maxDistIdx
  apply foldl_maxStep_nonpos
  intro i hi
  rw [List.mem_range'_1] at hi
  rw [colPath_dist i (by omega) (by omega)]

/-- Douglas–Peucker keeps no interior point of the collinear path. -/
theorem dpSimplify_colPath : dpSimplify colPath 0 100 = [] := by
  rw [dpSimplify]
  rw [if_neg (by norm_num)]
  rw [dif_neg (by rw [maxDistIdx_colPath]; norm_num)]

/-- The collinear path starts at the origin. -/
theorem colPath_headI : colPath.headI = ⟨0, 0⟩ := by
  unfold colPath
  rw [headI_map_range _ _ (by norm_num)]
  norm_num

/-- The collinear path ends at `(0, 100)`. -/
theorem colPath_getLastI : colPath.getLastI = ⟨0, 100⟩ := by
  unfold colPath
  rw [show (101 : ℕ) = 100 + 1 from rfl, List.range_succ, List.map_append,
    List.map_cons, List.map_nil, getLastI_concat]
  norm_num

/-- The origin is found at index 0 of the collinear path. -/
theorem findIdxPt_colPath_zero : findIdxPt ⟨0, 0⟩ colPath = 0 := by
  rw [show colPath = ⟨0, ((0 : ℕ) : ℝ)⟩ ::
      ((List.range 100).map fun i : ℕ => ⟨0, ((i + 1 : ℕ) : ℝ)⟩) by
    unfold colPath
    rw [show (101 : ℕ) = 100 + 1 from rfl, List.range_succ_eq_map,
      List.map_cons, List.map_map]
    rfl]
  simp only [findIdxPt]
  rw [if_pos (by norm_num)]

/-- Simplifying the collinear 101-point path collapses it to its two
endpoints. -/
theorem simplify_colPath :
    simplifyPoints colPath = [⟨0, 0⟩, ⟨0, 100⟩] := by
  have hlen : colPath.length = 101 := by
    unfold colPath
    rw [List.length_map, List.length_range]
  unfold simplifyPoints
  rw [if_neg (by rw [hlen]; norm_num)]
  rw [show colPath.length - 1 = 100 by rw [hlen]]
  rw [dpSimplify_colPath, colPath_headI, colPath_getLastI]
  simp only [List.nil_append, List.insertionSort, List.orderedInsert]
  rw [if_pos]
  rw [findIdxPt_colPath_zero]
  exact Nat.zero_le _

/-- Counterexample for C1: after exactly 100 straight unit steps the
processor holds only the two endpoints `(0,0)` and `(0,100)` — the
101st point pushed the list over the 100-point bound and the simplifier
collapsed the collinear path — so there is no point at index 100, where
the claim expects `points[100] = (0, 100·L)` in a list of 101 points. -/
theorem claimC1_counterexample :
    (walkStraight 1 0 100).points = [⟨0, 0⟩, ⟨0, 100⟩] ∧
    (walkStraight 1 0 100).points.length = 2 := by
  have hpts : (walkStraight 1 0 100).points = simplifyPoints colPath := by
    have hW : walkStraight 1 0 100 =
        processSensorData (walkStraight 1 0 99) ⟨none, some 100⟩ 0 := rfl
    rw [hW, walkStraight_spec 1 0 99 (by norm_num)]
    rw [processSensorData_step_big _ 100 0 (by simp) (by simp)
      (by norm_num)]
    show simplifyPoints
        ((List.range (99 + 1)).map (fun i : ℕ => ⟨0, (i : ℝ) * 1⟩) ++
          [stepDisplacedPoint
            ⟨1, (List.range (99 + 1)).map (fun i : ℕ => ⟨0, (i : ℝ) * 1⟩),
              0, 0, 0, 99, (99 : ℝ) * 1⟩
            (((100 - 99 : ℕ) : ℝ) * 1)]) = simplifyPoints colPath
    congr 1
    have hlast : ((List.range 100).map
        (fun i : ℕ => (⟨0, (i : ℝ) * 1⟩ : Point))).getLastI =
        ⟨0, (99 : ℝ) * 1⟩ := by
      rw [show (100 : ℕ) = 99 + 1 from rfl, List.range_succ,
        List.map_append]
      exact getLastI_concat _ _
    have hnew : stepDisplacedPoint
        ⟨1, (List.range (99 + 1)).map (fun i : ℕ => ⟨0, (i : ℝ) * 1⟩),
          0, 0, 0, 99, (99 : ℝ) * 1⟩
        (((100 - 99 : ℕ) : ℝ) * 1) = ⟨0, 100⟩ := by
      unfold stepDisplacedPoint
      simp only
      rw [show (99 : ℕ) + 1 = 100 from rfl, hlast]
      rw [show (0 : ℝ) * (Real.pi / 180) = 0 from zero_mul _,
        Real.sin_zero, Real.cos_zero]
      rw [show (100 - 99 : ℕ) = 1 from rfl]
      norm_num
    rw [hnew]
    rw [List.map_congr_left
      (fun a _ => by rw [mul_one] :
        ∀ a ∈ List.range (99 + 1),
          (⟨0, (a : ℝ) * 1⟩ : Point) = ⟨0, (a : ℝ)⟩)]
    unfold colPath
    rw [show (101 : ℕ) = 100 + 1 from rfl, List.range_succ 100,
      List.map_append, List.map_cons, List.map_nil]
    norm_num
  constructor
  · rw [hpts, simplify_colPath]
  · rw [hpts, simplify_colPath]
    rfl

/-- The origin is found at index 0 of the test path. -/
theorem findIdxPt_ptA : findIdxPt ptA [ptA, ptB, ptC, ptA] = 0 := by
  norm_num [findIdxPt, ptA]

/-- The far point is first found at index 2 of the test path. -/
theorem findIdxPt_ptC : findIdxPt ptC [ptA, ptB, ptC, ptA] = 2 := by
  norm_num [findIdxPt, ptA, ptB, ptC]

/-- Distance of the middle point from the zero-length chord `A – A` of
the closed test path: plain distance to `A`, which is 3. -/
theorem dpPointDist_abca_1 : dpPointDist [ptA, ptB, ptC, ptA] 0 3 1 = 3 := by
  unfold dpPointDist
  norm_num [List.getD_cons_zero, List.getD_cons_succ, ptA, ptB,
    Real.sqrt_zero]
  rw [show (9 : ℝ) = 3 ^ 2 by norm_num]
  exact Real.sqrt_sq (by norm_num)

/-- Distance of the far point from the zero-length chord `A – A`: 4. -/
theorem dpPointDist_abca_2 : dpPointDist [ptA, ptB, ptC, ptA] 0 3 2 = 4 := by
  unfold dpPointDist
  norm_num [List.getD_cons_zero, List.getD_cons_succ, ptA, ptC,
    Real.sqrt_zero]
  rw [show (16 : ℝ) = 4 ^ 2 by norm_num]
  exact Real.sqrt_sq (by norm_num)

/-- The middle point lies exactly on the chord `A – C`. -/
theorem dpPointDist_abca_02 :
    dpPointDist [ptA, ptB, ptC, ptA] 0 2 1 = 0 := by
  unfold dpPointDist
  norm_num [List.getD_cons_zero, List.getD_cons_succ, ptA, ptB, ptC]

/-- The interior scan over the closed test path peaks at the far point. -/
theorem maxDistIdx_abca_03 :
    maxDistIdx [ptA, ptB, ptC, ptA] 0 3 = (4, 2) := by
  unfold maxDistIdx
  rw [show (3 - (0 + 1) : ℕ) = 2 from rfl,
    show List.range' 1 2 = [1, 2] from rfl]
  simp only [List.foldl_cons, List.foldl_nil, maxStep]
  rw [dpPointDist_abca_1, dpPointDist_abca_2]
  norm_num

/-- The interior scan over the chord `A – C` finds no deviation. -/
theorem maxDistIdx_abca_02 :
    maxDistIdx [ptA, ptB, ptC, ptA] 0 2 = (0, 0) := by
  unfold maxDistIdx
  rw [show (2 - (0 + 1) : ℕ) = 1 from rfl,
    show List.range' 1 1 = [1] from rfl]
  simp only [List.foldl_cons, List.foldl_nil, maxStep]
  rw [dpPointDist_abca_02]
  norm_num

/-- Douglas–Peucker keeps nothing strictly between indices 0 and 2. -/
theorem dpSimplify_abca_02 : dpSimplify [ptA, ptB, ptC, ptA] 0 2 = [] := by
  rw [dpSimplify]
  rw [if_neg (by norm_num)]
  rw [dif_neg (by rw [maxDistIdx_abca_02]; norm_num)]

/-- Douglas–Peucker keeps nothing between adjacent indices 2 and 3. -/
theorem dpSimplify_abca_23 : dpSimplify [ptA, ptB, ptC, ptA] 2 3 = [] := by
  rw [dpSimplify]
  rw [if_pos (by norm_num)]

/-- Douglas–Peucker on the closed test path keeps exactly the far
point. -/
theorem dpSimplify_abca_03 :
    dpSimplify [ptA, ptB, ptC, ptA] 0 3 = [ptC] := by
  rw [dpSimplify]
  rw [if_neg (by norm_num)]
  rw [dif_pos (by rw [maxDistIdx_abca_03]; norm_num)]
  rw [maxDistIdx_abca_03]
  show dpSimplify [ptA, ptB, ptC, ptA] 0 2 ++
    [ptA, ptB, ptC, ptA].getD 2 default ::
      dpSimplify [ptA, ptB, ptC, ptA] 2 3 = [ptC]
  rw [dpSimplify_abca_02, dpSimplify_abca_23]
  rfl

/-- Simplifying the closed test path `A, B, C, A` returns `A, A, C`: the
value-based re-ordering sort maps both copies of `A` to index 0 and
moves the closing point away from the end. -/
theorem simplify_abca :
    simplifyPoints [ptA, ptB, ptC, ptA] = [ptA, ptA, ptC] := by
  unfold simplifyPoints
  rw [if_neg (by norm_num)]
  rw [show ([ptA, ptB, ptC, ptA] : List Point).length - 1 = 3 from rfl]
  rw [dpSimplify_abca_03]
  rw [show ([ptA, ptB, ptC, ptA] : List Point).headI = ptA from rfl,
    show ([ptA, ptB, ptC, ptA] : List Point).getLastI = ptA from rfl]
  show List.insertionSort _ [ptA, ptC, ptA] = [ptA, ptA, ptC]
  simp only [List.insertionSort, List.orderedInsert]
  rw [if_neg (by rw [findIdxPt_ptA, findIdxPt_ptC]; norm_num)]
  simp only [List.orderedInsert]
  rw [if_pos (le_refl (findIdxPt ptA [ptA, ptB, ptC, ptA]))]

/-- Claim C4's failure at the concrete input: closing the 3-point loop
`A, B, C` returns `A, A, C`, whose last point differs from its first —
the returned sequence is not exactly closed. -/
theorem claimC4_eval :
    (closeLoop cornerState).2 = [ptA, ptA, ptC] ∧
    (closeLoop cornerState).2.getLastI ≠ (closeLoop cornerState).2.headI := by
  have h2 : (closeLoop cornerState).2 = [ptA, ptA, ptC] := by
    unfold closeLoop
    rw [if_neg (by norm_num [cornerState])]
    exact simplify_abca
  refine ⟨h2, ?_⟩
  rw [h2]
  show ptC ≠ ptA
  intro hcon
  have hx := congrArg Point.x hcon
  norm_num [ptA, ptC] at hx

/-- Claim C5's failure at the concrete input: the simplifier's output
`A, A, C` is not a subsequence of the input `A, B, C, A` in input order,
and its last point is not the input's last point. -/
theorem claimC5_eval :
    simplifyPoints [ptA, ptB, ptC, ptA] = [ptA, ptA, ptC] ∧
    ¬ List.Sublist [ptA, ptA, ptC] [ptA, ptB, ptC, ptA] ∧
    ([ptA, ptA, ptC] : List Point).getLastI ≠
      ([ptA, ptB, ptC, ptA] : List Point).getLastI := by
  refine ⟨simplify_abca, ?_, ?_⟩
  · intro h
    have hm := h.map labelPt
    rw [show List.map labelPt [ptA, ptA, ptC] = [0, 0, 2] by
      norm_num [labelPt, ptA, ptC]] at hm
    rw [show List.map labelPt [ptA, ptB, ptC, ptA] = [0, 1, 2, 0] by
      norm_num [labelPt, ptA, ptB, ptC]] at hm
    exact absurd hm (by decide)
  · show ptC ≠ ptA
    intro hcon
    have hx := congrArg Point.x hcon
    norm_num [ptA, ptC] at hx

end WindowWise
